import Mathlib

/-!
# Verification of the wimbd n-gram counting engine against its specification

This file gives a shallow embedding, in Lean 4, of the parts of the
`allenai/wimbd` Rust sources that the specification's claims are about:

* the sliding-window n-gram pipeline shared by the `topk`, `botk` and
  `unique` tasks (`src/cmd/topk.rs`, `src/cmd/botk.rs`, `src/cmd/unique.rs`,
  each `collect_ngrams` closure);
* the per-record admission tests and the end-of-file merge filters of the
  `topk` and `botk` tasks;
* the worker-count computation of `DataExecutor::new` and the per-job path
  verification of `DataExecutor::execute_with_callback` (`src/cmd/util.rs`);
* the argument validation of each task's `main`;
* the exact-count search loop (`count_occurences` in `src/cmd/count.rs`);
* the s3 path helpers (`is_s3`, `split_s3_path` in `src/s3.rs`).

Machine integers are embedded as `Nat`; the only place where the u32 range
matters is the `u32::MAX` constant used by the bottom-k inversion trick,
embedded as the explicit constant `u32Max = 2^32 - 1`.

The `NgramCounter` and `TopKNgrams` types live in the repository's `ngrams`
module, which is outside the sources under review; where their behaviour is
needed it is modelled from the specification (marked `Modelled from the
spec:` on the definition).  The hash-table itself never decides a claim:
the handlers below are parametrised by an abstract `increment`/`max_count`
oracle and the claims quantify over its answers.
-/

namespace Wimbd

/-- `u32::MAX`, the saturation bound and bottom-k inversion base. -/
def u32Max : Nat := 4294967295

/-! ## The sliding-window n-gram pipeline

All three counting tasks run the same loop over the tokens of a record
(`topk.rs:218-237`, `botk.rs:184-196` / `239-262`, `unique.rs:124-135`):

```rust
let mut ngram_deque: VecDeque<String> = VecDeque::with_capacity(opt.ngram);
for token in tokens {
    if ngram_deque.len() == opt.ngram {
        ngram_deque.pop_front();
    }
    ngram_deque.push_back(token);
    if ngram_deque.len() == opt.ngram {
        // ... handle the full window ...
    }
}
```

`slideStep` is one iteration of the deque update; `windowsAux` collects the
full windows handed to the task-specific handler, in order.
-/

/-- One deque update of the sliding-window loop: pop the front when the
deque already holds `n` tokens, then push the new token at the back. -/
def slideStep (n : Nat) (dq : List α) (tok : α) : List α :=
  (if dq.length = n then dq.drop 1 else dq) ++ [tok]

/-- The sequence of full windows produced by the sliding-window loop,
starting from deque contents `dq`.  A window is handed to the handler
exactly when the deque holds `n` tokens after the push. -/
def windowsAux (n : Nat) (dq : List α) : List α → List (List α)
  | [] => []
  | t :: ts =>
    let d := slideStep n dq t
    if d.length = n then d :: windowsAux n d ts else windowsAux n d ts

/-- All n-gram keys produced for one record: the sliding-window loop run
from the empty deque over the record's token sequence. -/
def ngramWindows (n : Nat) (ts : List α) : List (List α) :=
  windowsAux n [] ts

/-- The `unique` task's per-record handler (`unique.rs:115-140`) as a fold:
the state is the deque together with the trace of `ngram_counts.increment`
calls made so far (one per full window, in order). -/
def uniqueStep (n : Nat) (s : List α × List (List α)) (tok : α) : List α × List (List α) :=
  let d := slideStep n s.1 tok
  if d.length = n then (d, s.2 ++ [d]) else (d, s.2)

/-- The trace of counter operations the `unique` task performs on one
record: the keys passed to `ngram_counts.increment`, in order. -/
def uniqueIncrementTrace (n : Nat) (ts : List α) : List (List α) :=
  (ts.foldl (uniqueStep n) ([], [])).2

/-- The deque after consuming `c` (starting empty) is the last `n` tokens
of `c`; `slideStep` preserves this. -/
lemma slideStep_drop (n : Nat) (hn : 1 ≤ n) (c : List α) (t : α) :
    slideStep n (c.drop (c.length - n)) t = (c ++ [t]).drop (c.length + 1 - n) := by
  unfold slideStep
  rcases Nat.lt_or_ge c.length n with h | h
  · have h0 : c.length - n = 0 := Nat.sub_eq_zero_of_le (Nat.le_of_lt h)
    have h1 : c.length + 1 - n = 0 := Nat.sub_eq_zero_of_le h
    rw [h0, List.drop_zero, if_neg (Nat.ne_of_lt h), h1, List.drop_zero]
  · have hlen : (c.drop (c.length - n)).length = n := by
      rw [List.length_drop]
      omega
    rw [if_pos hlen]
    have hdd : (c.drop (c.length - n)).drop 1 = c.drop (c.length + 1 - n) := by
      rw [List.drop_drop]
      congr 1
      omega
    rw [hdd]
    have hle : c.length + 1 - n ≤ c.length := by omega
    rw [List.drop_append_of_le_length hle]

/-- Length of the deque contents `(c ++ ts-consumed).drop (len + 1 - n)`:
the post-push deque is full exactly when at least `n` tokens were seen. -/
lemma fullWindow_iff (n : Nat) (c : List α) (t : α) :
    ((c ++ [t]).drop (c.length + 1 - n)).length = n ↔ n ≤ c.length + 1 := by
  rw [List.length_drop, List.length_append]
  simp only [List.length_cons, List.length_nil]
  omega

/-- The emitted window is a contiguous slice of the full record: appending
the unread suffix does not change it. -/
lemma window_take_eq (n : Nat) (c : List α) (t : α) (ts : List α) (h : n ≤ c.length + 1) :
    ((c ++ t :: ts).drop (c.length + 1 - n)).take n = (c ++ [t]).drop (c.length + 1 - n) := by
  have hsplit : c ++ t :: ts = (c ++ [t]) ++ ts := by simp
  have hlen : ((c ++ [t]).drop (c.length + 1 - n)).length = n := by
    rw [List.length_drop, List.length_append, List.length_singleton]
    omega
  have hle : c.length + 1 - n ≤ (c ++ [t]).length := by
    rw [List.length_append, List.length_singleton]
    omega
  rw [hsplit, List.drop_append_of_le_length hle,
    List.take_append_of_le_length (by rw [hlen]),
    List.take_of_length_le (Nat.le_of_eq hlen)]

/-- Main invariant of the sliding-window loop: run from the deque holding
the last `n` tokens of an already-consumed prefix `c`, it emits one window
per consumed token once at least `n` tokens have been seen, and the window
is the corresponding `n`-token slice of `c ++ ts`. -/
lemma windowsAux_eq (n : Nat) (hn : 1 ≤ n) :
    ∀ (ts c : List α),
      windowsAux n (c.drop (c.length - n)) ts
        = (List.range ts.length).filterMap (fun j =>
            if n ≤ c.length + j + 1 then
              some (((c ++ ts).drop (c.length + j + 1 - n)).take n)
            else none)
  | [], _ => by simp [windowsAux]
  | t :: ts, c => by
    have hlc : (c ++ [t]).length = c.length + 1 := by
      rw [List.length_append, List.length_singleton]
    simp only [windowsAux]
    rw [slideStep_drop n hn c t]
    have hc' : (c ++ [t]).drop (c.length + 1 - n)
        = (c ++ [t]).drop ((c ++ [t]).length - n) := by rw [hlc]
    have ih := windowsAux_eq n hn ts (c ++ [t])
    rw [← hc'] at ih
    rw [List.length_cons, List.range_succ_eq_map, List.filterMap_cons, List.filterMap_map]
    have hshift : ∀ j ∈ List.range ts.length,
        ((fun j => if n ≤ c.length + j + 1 then
            some (((c ++ t :: ts).drop (c.length + j + 1 - n)).take n) else none) ∘ Nat.succ) j
        = (fun j => if n ≤ (c ++ [t]).length + j + 1 then
            some ((((c ++ [t]) ++ ts).drop ((c ++ [t]).length + j + 1 - n)).take n) else none) j := by
      intro j _
      simp only [Function.comp_apply, hlc, Nat.succ_eq_add_one]
      have e1 : c.length + (j + 1) + 1 = c.length + 1 + j + 1 := by omega
      have e2 : c ++ t :: ts = (c ++ [t]) ++ ts := by simp
      rw [e1, e2]
    rw [List.filterMap_congr hshift, ← ih]
    by_cases hfull : n ≤ c.length + 1
    · have hlen : ((c ++ [t]).drop (c.length + 1 - n)).length = n := by
        rw [List.length_drop, hlc]
        omega
      rw [if_pos hlen, if_pos (show n ≤ c.length + 0 + 1 by omega)]
      have hwin : ((c ++ t :: ts).drop (c.length + 0 + 1 - n)).take n
          = (c ++ [t]).drop (c.length + 1 - n) := by
        rw [Nat.add_zero]
        exact window_take_eq n c t ts hfull
      rw [hwin]
    · have hlen : ¬ ((c ++ [t]).drop (c.length + 1 - n)).length = n := by
        rw [List.length_drop, hlc]
        omega
      rw [if_neg hlen, if_neg (show ¬ n ≤ c.length + 0 + 1 by omega)]

/-- Reindexing: the windows enumerated by emission step `j` (emitted when
`n ≤ j + 1`) are exactly the windows at start positions `0 .. t - n`. -/
lemma filterMap_range_shift (n : Nat) (hn : 1 ≤ n) (f : Nat → List α) :
    ∀ t : Nat,
      (List.range t).filterMap (fun j => if n ≤ j + 1 then some (f (j + 1 - n)) else none)
        = (List.range (t + 1 - n)).map f := by
  intro t
  induction t with
  | zero =>
    have : 1 - n = 0 := by omega
    simp [this]
  | succ t ih =>
    rw [List.range_succ, List.filterMap_append, ih]
    by_cases h : n ≤ t + 1
    · have e : t + 1 + 1 - n = (t + 1 - n) + 1 := by omega
      rw [e, List.range_succ, List.map_append]
      simp [h]
    · have e1 : t + 1 - n = 0 := by omega
      have e2 : t + 1 + 1 - n = 0 := by omega
      simp [e1, e2, h]

/-- The sliding-window loop over a record of `t` tokens produces exactly
the `t + 1 - n` contiguous `n`-token slices, in order. -/
lemma ngramWindows_eq (n : Nat) (hn : 1 ≤ n) (ts : List α) :
    ngramWindows n ts = (List.range (ts.length + 1 - n)).map (fun i => (ts.drop i).take n) := by
  have h := windowsAux_eq n hn ts ([] : List α)
  simp only [List.length_nil, Nat.zero_sub, List.drop_zero, List.nil_append, Nat.zero_add] at h
  rw [ngramWindows, h]
  have hcong : ∀ j ∈ List.range ts.length,
      (if n ≤ j + 1 then some ((ts.drop (j + 1 - n)).take n) else none)
        = (if n ≤ j + 1 then some ((fun i => (ts.drop i).take n) (j + 1 - n)) else none) := by
    intro j _; rfl
  rw [List.filterMap_congr hcong]
  exact filterMap_range_shift n hn (fun i => (ts.drop i).take n) ts.length

/-- The `unique` fold's increment trace is the window trace. -/
lemma uniqueFold_trace (n : Nat) :
    ∀ (ts : List α) (dq : List α) (lg : List (List α)),
      (ts.foldl (uniqueStep n) (dq, lg)).2 = lg ++ windowsAux n dq ts
  | [], _, _ => by simp [windowsAux]
  | t :: ts, dq, lg => by
    rw [List.foldl_cons]
    simp only [windowsAux]
    by_cases h : (slideStep n dq t).length = n
    · have hstep : uniqueStep n (dq, lg) t = (slideStep n dq t, lg ++ [slideStep n dq t]) := by
        simp [uniqueStep, h]
      rw [hstep, if_pos h, uniqueFold_trace n ts (slideStep n dq t) (lg ++ [slideStep n dq t])]
      simp
    · have hstep : uniqueStep n (dq, lg) t = (slideStep n dq t, lg) := by
        simp [uniqueStep, h]
      rw [hstep, if_neg h, uniqueFold_trace n ts (slideStep n dq t) lg]

/-! ## The bounded top-k heap (`TopKNgrams`)

The `TopKNgrams` type lives in the repository's `ngrams` module, which is
not among the sources under review; it is modelled here from the
specification, §4.2. -/

/-- Modelled from the spec: `TopKNgrams` (§4.2 TopKHeap) — missing source
module `ngrams`.  A bounded min-heap of capacity `k` holding
(ngram, count) entries, modelled as the multiset of entries in a list. -/
structure TopKNgrams (α : Type) where
  k : Nat
  entries : List (α × Nat)

/-- Modelled from the spec: the count at the heap's root, i.e. the least
count among the entries (`0` for an empty heap). -/
def TopKNgrams.rootCount (h : TopKNgrams α) : Nat :=
  match h.entries.map Prod.snd with
  | [] => 0
  | c :: cs => cs.foldl Nat.min c

/-- Modelled from the spec: the published watermark — "when size = K,
`min_count` equals the count at the root" (§3 TopKHeap invariant); below
capacity nothing has been evicted, so the watermark is `0`. -/
def TopKNgrams.min_count (h : TopKNgrams α) : Nat :=
  if h.entries.length = h.k then h.rootCount else 0

/-- Modelled from the spec: remove one root (least-count) entry. -/
def TopKNgrams.popRoot (h : TopKNgrams α) : List (α × Nat) :=
  match h.entries.findIdx? (fun e => e.2 = h.rootCount) with
  | some i => h.entries.eraseIdx i
  | none => h.entries

/-- Modelled from the spec: `insert(ngram, count)` (§4.2 Admission) — "if
size < K, push and re-heapify; else if count > root.count, pop root, push
new, re-heapify; else drop". -/
def TopKNgrams.insert (h : TopKNgrams α) (w : α) (c : Nat) : TopKNgrams α :=
  if h.entries.length < h.k then ⟨h.k, (w, c) :: h.entries⟩
  else if h.rootCount < c then ⟨h.k, (w, c) :: h.popRoot⟩
  else h

/-! ## The top-K task's per-record handler

`topk.rs:199-242` (`collect_ngrams`): for each record the worker runs the
sliding-window loop; each time the window is full it calls
`count = ngram_counts.increment(&ngram_deque, 1)` and then

```rust
if count > threshold
    && count >= local_topk.min_count
    && count >= min_count.load(Ordering::Relaxed)
{
    let ngram: Vec<String> = ngram_deque.iter().cloned().collect();
    local_topk.insert(ngram, count);
}
```

The counting table is abstracted by an oracle
`incr : τ → List α → Nat × τ` standing for `increment(key, 1)` (the table
lives in the missing `ngrams` module and never decides these claims);
`globalMin` is the value read from the global heap's published watermark.
The `admitted` field records each `local_topk.insert` call, in order. -/

structure TopkSt (α τ : Type) where
  deque : List α
  table : τ
  heap : TopKNgrams (List α)
  admitted : List (List α × Nat)

/-- One token of the top-K handler (`topk.rs:218-237`). -/
def topkStep (incr : τ → List α → Nat × τ) (threshold globalMin n : Nat)
    (s : TopkSt α τ) (tok : α) : TopkSt α τ :=
  let d := slideStep n s.deque tok
  if d.length = n then
    let r := incr s.table d
    if threshold < r.1 ∧ s.heap.min_count ≤ r.1 ∧ globalMin ≤ r.1 then
      ⟨d, r.2, s.heap.insert d r.1, s.admitted ++ [(d, r.1)]⟩
    else ⟨d, r.2, s.heap, s.admitted⟩
  else ⟨d, s.table, s.heap, s.admitted⟩

/-- The top-K handler run over one record's tokens. -/
def topkProcessRecord (incr : τ → List α → Nat × τ) (threshold globalMin n : Nat)
    (tb0 : τ) (hp0 : TopKNgrams (List α)) (ts : List α) : TopkSt α τ :=
  ts.foldl (topkStep incr threshold globalMin n) ⟨[], tb0, hp0, []⟩

/-- Observation of one full window during a top-K record run: the window,
the count returned by the table, and the local heap's watermark at that
moment. -/
structure WinObs (α : Type) where
  window : List α
  count : Nat
  localWm : Nat

/-- Instrumented top-K handler: identical state evolution to `topkStep`,
but records an observation for every full window (admitted or not). -/
structure TopkObsSt (α τ : Type) where
  deque : List α
  table : τ
  heap : TopKNgrams (List α)
  obs : List (WinObs α)

def topkObsStep (incr : τ → List α → Nat × τ) (threshold globalMin n : Nat)
    (s : TopkObsSt α τ) (tok : α) : TopkObsSt α τ :=
  let d := slideStep n s.deque tok
  if d.length = n then
    let r := incr s.table d
    let heap' := if threshold < r.1 ∧ s.heap.min_count ≤ r.1 ∧ globalMin ≤ r.1 then
        s.heap.insert d r.1
      else s.heap
    ⟨d, r.2, heap', s.obs ++ [⟨d, r.1, s.heap.min_count⟩]⟩
  else ⟨d, s.table, s.heap, s.obs⟩

/-- The admission test of `topk.rs:229-232`, applied to an observation:
`count > threshold && count >= local watermark && count >= global
watermark`. -/
def topkAdmitTest (threshold globalMin : Nat) (o : WinObs α) : Bool :=
  decide (threshold < o.count) && decide (o.localWm ≤ o.count) && decide (globalMin ≤ o.count)

/-- The admission tests the claim asserts: all three comparisons strict. -/
def topkStrictTest (threshold globalMin : Nat) (o : WinObs α) : Bool :=
  decide (threshold < o.count) && decide (o.localWm < o.count) && decide (globalMin < o.count)

/-- The admitted log of the top-K handler is the filter of the full
observation trace under the source's admission test. -/
lemma topkFold_admitted (incr : τ → List α → Nat × τ) (th gm n : Nat) :
    ∀ (ts : List α) (s1 : TopkSt α τ) (s2 : TopkObsSt α τ),
      s1.deque = s2.deque → s1.table = s2.table → s1.heap = s2.heap →
      s1.admitted = (s2.obs.filter (topkAdmitTest th gm)).map (fun o => (o.window, o.count)) →
      (ts.foldl (topkStep incr th gm n) s1).admitted
        = ((ts.foldl (topkObsStep incr th gm n) s2).obs.filter
            (topkAdmitTest th gm)).map (fun o => (o.window, o.count))
  | [], s1, s2, _, _, _, hlog => by simpa using hlog
  | tok :: ts, s1, s2, hdq, htb, hhp, hlog => by
    rw [List.foldl_cons, List.foldl_cons]
    by_cases hfull : (slideStep n s1.deque tok).length = n
    · by_cases hcond : th < (incr s1.table (slideStep n s1.deque tok)).1
          ∧ s1.heap.min_count ≤ (incr s1.table (slideStep n s1.deque tok)).1
          ∧ gm ≤ (incr s1.table (slideStep n s1.deque tok)).1
      · have h1 : topkStep incr th gm n s1 tok
            = ⟨slideStep n s1.deque tok, (incr s1.table (slideStep n s1.deque tok)).2,
                s1.heap.insert (slideStep n s1.deque tok)
                  (incr s1.table (slideStep n s1.deque tok)).1,
                s1.admitted ++ [(slideStep n s1.deque tok,
                  (incr s1.table (slideStep n s1.deque tok)).1)]⟩ := by
          simp [topkStep, hfull, hcond]
        have h2 : topkObsStep incr th gm n s2 tok
            = ⟨slideStep n s1.deque tok, (incr s1.table (slideStep n s1.deque tok)).2,
                s1.heap.insert (slideStep n s1.deque tok)
                  (incr s1.table (slideStep n s1.deque tok)).1,
                s2.obs ++ [⟨slideStep n s1.deque tok,
                  (incr s1.table (slideStep n s1.deque tok)).1, s1.heap.min_count⟩]⟩ := by
          simp [topkObsStep, ← hdq, ← htb, ← hhp, hfull, hcond]
        rw [h1, h2]
        refine topkFold_admitted incr th gm n ts _ _ rfl rfl rfl ?_
        have htest : topkAdmitTest th gm
            (WinObs.mk (slideStep n s1.deque tok)
              (incr s1.table (slideStep n s1.deque tok)).1 s1.heap.min_count) = true := by
          simp [topkAdmitTest, hcond.1, hcond.2.1, hcond.2.2]
        simp [List.filter_append, htest, hlog]
      · have h1 : topkStep incr th gm n s1 tok
            = ⟨slideStep n s1.deque tok, (incr s1.table (slideStep n s1.deque tok)).2,
                s1.heap, s1.admitted⟩ := by
          simp [topkStep, hfull, hcond]
        have h2 : topkObsStep incr th gm n s2 tok
            = ⟨slideStep n s1.deque tok, (incr s1.table (slideStep n s1.deque tok)).2,
                s1.heap,
                s2.obs ++ [⟨slideStep n s1.deque tok,
                  (incr s1.table (slideStep n s1.deque tok)).1, s1.heap.min_count⟩]⟩ := by
          simp [topkObsStep, ← hdq, ← htb, ← hhp, hfull, hcond]
        rw [h1, h2]
        refine topkFold_admitted incr th gm n ts _ _ rfl rfl rfl ?_
        have htest : topkAdmitTest th gm
            (WinObs.mk (slideStep n s1.deque tok)
              (incr s1.table (slideStep n s1.deque tok)).1 s1.heap.min_count) = false := by
          simp only [topkAdmitTest, Bool.and_eq_false_iff, decide_eq_false_iff_not]
          by_contra hc
          push_neg at hc
          rcases hc with ⟨hc1, hc2⟩
          rcases hc1 with ⟨hc3, hc4⟩
          exact hcond ⟨hc3, hc4, hc2⟩
        simp [List.filter_append, htest, hlog]
    · have h1 : topkStep incr th gm n s1 tok
          = ⟨slideStep n s1.deque tok, s1.table, s1.heap, s1.admitted⟩ := by
        simp [topkStep, hfull]
      have h2 : topkObsStep incr th gm n s2 tok
          = ⟨slideStep n s1.deque tok, s1.table, s1.heap, s2.obs⟩ := by
        simp [topkObsStep, ← hdq, ← htb, ← hhp, hfull]
      rw [h1, h2]
      exact topkFold_admitted incr th gm n ts _ _ rfl rfl rfl hlog

/-! ## The bottom-K task's second pass

`botk.rs:221-267` (`collect_ngrams`, pass 2): each full window is looked
up with `inverse_count = ngram_counts.max_count(&ngram_deque)` and

```rust
let threshold = u32::MAX - opt.threshold;            // botk.rs:225
...
if inverse_count > threshold
    && inverse_count >= local_topk.min_count
    && inverse_count >= min_count.load(Ordering::Relaxed)
{
    if let Some(p_keep) = opt.p_keep {
        if random::<f32>() > p_keep {
            continue;
        }
    }
    local_topk.insert(ngram, inverse_count);
}
```

The table is read-only in the second pass, abstracted by the oracle
`maxCount : List α → Nat`; the unseeded `random::<f32>()` draws are
modelled as a stream `stream : Nat → ℚ` of values consumed left to right
(`rix` is the index of the next draw), compared against
`pKeep : Option ℚ`. -/

structure BotkSt (α : Type) where
  deque : List α
  heap : TopKNgrams (List α)
  admitted : List (List α × Nat)
  rix : Nat

/-- One token of the bottom-K pass-2 handler (`botk.rs:239-262`). -/
def botkStep (maxCount : List α → Nat) (pKeep : Option ℚ) (stream : Nat → ℚ)
    (taskThreshold globalMin n : Nat) (s : BotkSt α) (tok : α) : BotkSt α :=
  let d := slideStep n s.deque tok
  if d.length = n then
    let inv := maxCount d
    if u32Max - taskThreshold < inv ∧ s.heap.min_count ≤ inv ∧ globalMin ≤ inv then
      match pKeep with
      | none => ⟨d, s.heap.insert d inv, s.admitted ++ [(d, inv)], s.rix⟩
      | some p =>
        if p < stream s.rix then ⟨d, s.heap, s.admitted, s.rix + 1⟩
        else ⟨d, s.heap.insert d inv, s.admitted ++ [(d, inv)], s.rix + 1⟩
    else ⟨d, s.heap, s.admitted, s.rix⟩
  else ⟨d, s.heap, s.admitted, s.rix⟩

/-- The bottom-K pass-2 handler run over one record's tokens. -/
def botkProcessRecord (maxCount : List α → Nat) (pKeep : Option ℚ) (stream : Nat → ℚ)
    (taskThreshold globalMin n : Nat) (hp0 : TopKNgrams (List α)) (ts : List α) : BotkSt α :=
  ts.foldl (botkStep maxCount pKeep stream taskThreshold globalMin n) ⟨[], hp0, [], 0⟩

/-- The bottom-K end-of-file merge filter (`sync_local_topk`,
`botk.rs:271-286`): a drained entry `(ngram, inverse_count)` is forwarded
to the channel iff

```rust
let threshold = <<AtomicU32 as Atomic>::Type as NumCast>::from(opt.threshold).unwrap();
...
if inverse_count > threshold && inverse_count >= min_count.load(Ordering::Relaxed)
```

Note the comparison is against `opt.threshold` itself, not against
`u32::MAX - opt.threshold`. -/
def sync_local_topk (taskThreshold globalMin : Nat) (drained : List (List α × Nat)) :
    List (List α × Nat) :=
  drained.filter (fun e => decide (taskThreshold < e.2) && decide (globalMin ≤ e.2))

/-- Modelled from the spec: the merge filter the specification describes
("same admission test against `threshold_inv = type_max − task_threshold`",
§4.5) — the source's `sync_local_topk` deviates from this. -/
def specSyncLocalTopk (taskThreshold globalMin : Nat) (drained : List (List α × Nat)) :
    List (List α × Nat) :=
  drained.filter (fun e => decide (u32Max - taskThreshold < e.2) && decide (globalMin ≤ e.2))

/-! ## Worker-pool sizing, path verification, argument validation -/

/-- The worker-count computation of `DataExecutor::new`
(`util.rs:127-134`):

```rust
let workers = std::cmp::max(
    1,
    std::cmp::min(
        max_workers.unwrap_or_else(|| std::cmp::min(64, num_cpus::get())),
        paths.len(),
    ),
);
``` -/
def dataExecutorWorkers (maxWorkers : Option Nat) (numCpus : Nat) (numPaths : Nat) : Nat :=
  Nat.max 1 (Nat.min (maxWorkers.getD (Nat.min 64 numCpus)) numPaths)

/-- The worker count the claim asserts: `min(configured, CPU-count, 64,
number-of-input-files)`. -/
def claimedWorkers (configured numCpus numPaths : Nat) : Nat :=
  Nat.min (Nat.min configured numCpus) (Nat.min 64 numPaths)

/-- The per-job path verification of `DataExecutor::execute_with_callback`
(`util.rs:183-186`):

```rust
if !path.is_file() {
    self.early_exit.store(true, Ordering::Relaxed);
    bail!("File {:?} does not exist", path);
}
```

The OS file-system query `Path::is_file` is the environment, passed in as
`isFile`.  The result is `(early_exit_raised, error)`. -/
def executePathCheck (isFile : String → Bool) (p : String) : Bool × Option String :=
  if !(isFile p) then (true, some ("File " ++ p ++ " does not exist"))
  else (false, none)

/-- `is_s3` (`s3.rs:24-26`): a path is an s3 URI iff its string form
starts with `"s3://"` (stated over the character sequence). -/
def is_s3 (p : String) : Bool :=
  "s3://".data.isPrefixOf p.data

/-- Modelled from the spec: the per-job verification the specification
describes — "verifies the path is a regular file or remote URI, failing
fast otherwise" (§4.4). -/
def specPathVerify (isFile : String → Bool) (p : String) : Bool :=
  isFile p || is_s3 p

/-- `opt.path.truncate(file_limit)`, applied when `--file-limit` is
given. -/
def truncOpt (fileLimit : Option Nat) (ps : List γ) : List γ :=
  match fileLimit with
  | some l => ps.take l
  | none => ps

/-- The `topk` task's arguments, after `expand_dirs` (`topk.rs:107`) has
replaced directories by the globbed file list (directory expansion is the
file-system collaborator; its output is this model's input). -/
structure TopkOpt where
  path : List String
  topk : Nat
  size : Nat
  hashes : Nat
  ngram : Nat
  fileLimit : Option Nat

/-- The argument validation of `topk::main` (`topk.rs:106-131`).  Returns
the path list the driver proceeds with.  Note: there is no empty-path
check. -/
def topkValidate (o : TopkOpt) : Except String (List String) :=
  if o.topk = 0 then .error "-k/--topk must be greater than 0"
  else if o.size = 0 then .error "--size must be greater than 0"
  else if o.hashes = 0 then .error "-h/--hashes must be greater than 0"
  else if o.ngram = 0 then .error "-n/--ngram must be greater than 0"
  else .ok (truncOpt o.fileLimit o.path)

/-- The `botk` task's arguments. -/
structure BotkOpt where
  path : List String
  k : Nat
  size : Nat
  hashes : Nat
  ngram : Nat
  fileLimit : Option Nat
  pKeep : Option ℚ

/-- The argument validation of `botk::main` (`botk.rs:104-127`). -/
def botkValidate (o : BotkOpt) : Except String (List String) :=
  if o.path = [] then .error "at least one path is required"
  else if o.k = 0 then .error "-k must be greater than 0"
  else if o.size = 0 then .error "--size must be greater than 0"
  else if o.hashes = 0 then .error "-h/--hashes must be greater than 0"
  else if o.ngram = 0 then .error "-n/--ngram must be greater than 0"
  else
    match o.pKeep with
    | some p =>
      if p ≤ 0 ∨ 1 < p then .error "--p-keep must be between in the interval (0, 1]"
      else .ok (truncOpt o.fileLimit o.path)
    | none => .ok (truncOpt o.fileLimit o.path)

/-- The `unique` task's arguments, after `expand_dirs` (`unique.rs:66`). -/
structure UniqueOpt where
  path : List String
  size : Nat
  hashes : Nat
  ngram : Nat
  fileLimit : Option Nat

/-- The argument validation of `unique::main` (`unique.rs:65-83`). -/
def uniqueValidate (o : UniqueOpt) : Except String (List String) :=
  if o.path = [] then .error "at least one path is required"
  else if o.size = 0 then .error "--size must be greater than 0"
  else if o.hashes = 0 then .error "-h/--hashes must be greater than 0"
  else if o.ngram = 0 then .error "-n/--ngram must be greater than 0"
  else .ok (truncOpt o.fileLimit o.path)

/-- The `count` task's arguments. -/
structure CountOpt where
  path : List String
  search : List String
  fileLimit : Option Nat

/-- The argument validation of `count::main` (`count.rs:66-78`). -/
def countValidate (o : CountOpt) : Except String (List String) :=
  if o.search = [] then .error "At least one -s/--search term is required"
  else
    match o.fileLimit with
    | some 0 => .error "File limit cannot be 0"
    | _ =>
      let path := truncOpt o.fileLimit o.path
      if path = [] then .error "at least one path is required"
      else .ok path

/-! ## Path preparation and shuffling in the task drivers

`botk::main` shuffles its (truncated) path list before the passes
(`botk.rs:140-146`); `topk` has no corresponding code — `fn topk`
(`topk.rs:197`, `267`) enqueues `opt.path` in the order produced by
validation.  The permutation the seeded `StdRng` shuffle applies is the
external `rand` collaborator, abstracted as `perm`. -/

/-- The order in which `botk::main` enqueues jobs: the seeded shuffle
applied to the validated path list (`botk.rs:146`, `169`, `220`). -/
def botkEnqueueOrder (perm : List String → List String) (validatedPaths : List String) :
    List String :=
  perm validatedPaths

/-- The order in which `fn topk` enqueues jobs: the validated path list
itself — `topk.rs` contains no shuffle. -/
def topkEnqueueOrder (_perm : List String → List String) (validatedPaths : List String) :
    List String :=
  validatedPaths

/-! ## The exact-count task's search loop -/

/-- `count_occurences` (`count.rs:189-206`), specialised to the counter of
a single search term `s`:

```rust
for index in min_search_length..(tokens.len() + 1) {
    for (search, count) in counts.iter() {
        if search.len() <= index {
            let slice = &tokens[(index - search.len())..index];
            if slice == &search[..] {
                count.fetch_add(1, Ordering::Relaxed);
            }
        }
    }
}
```

The returned value is the number of `fetch_add(1)` calls made for `s`. -/
def count_occurences [DecidableEq α] (minLen : Nat) (tokens : List α) (s : List α) : Nat :=
  (List.range' minLen (tokens.length + 1 - minLen)).countP
    (fun idx => decide (s.length ≤ idx) && decide ((tokens.drop (idx - s.length)).take s.length = s))

/-! ## The s3 path helpers (`s3.rs`) -/

/-- `is_s3` over the character sequence of the path's string form. -/
def is_s3Chars (p : List Char) : Bool :=
  "s3://".data.isPrefixOf p

/-- `strip_prefix`-style helper: `Some(rest)` when `pre` is a prefix. -/
def stripPrefHelper (pre l : List Char) : Option (List Char) :=
  if pre.isPrefixOf l then some (l.drop pre.length) else none

/-- `str::find('/')`: index of the first `'/'`, if any. -/
def findSlash : List Char → Option Nat
  | [] => none
  | c :: cs => if c = '/' then some 0 else (findSlash cs).map (· + 1)

/-- `split_s3_path` (`s3.rs:46-61`): strip the `"s3://"` scheme, find the
first `'/'`, and split into `(bucket, key)`.  The source's two `expect`
panics are the `none` cases. -/
def split_s3_path (l : List Char) : Option (List Char × List Char) :=
  (stripPrefHelper "s3://".data l).bind (fun rest =>
    (findSlash rest).map (fun i => (rest.take i, rest.drop (i + 1))))

/-! ## Supporting lemmas -/

/-- Reindexing a guarded count over an initial segment: entries below `k`
never satisfy the guard, the rest are shifted by `k`. -/
lemma countP_range_shift (k : Nat) (R : Nat → Bool) :
    ∀ n : Nat, (List.range (n + k)).countP (fun j => decide (k ≤ j) && R j)
      = (List.range n).countP (fun j => R (j + k)) := by
  intro n
  induction n with
  | zero =>
    rw [Nat.zero_add]
    rw [List.countP_eq_zero.mpr]
    · simp
    · intro j hj
      rw [List.mem_range] at hj
      simp [Nat.not_le.mpr hj]
  | succ n ih =>
    have e : n + 1 + k = (n + k) + 1 := by omega
    rw [e, List.range_succ, List.range_succ, List.countP_append, List.countP_append, ih]
    have : (decide (k ≤ n + k) && R (n + k)) = R (n + k) := by
      simp [Nat.le_add_left]
    simp [List.countP_cons, this]

/-- `isPrefixOf` is prefix-testing. -/
lemma isPrefixOf_exists : ∀ (pre l : List Char), pre.isPrefixOf l = true ↔ ∃ t, pre ++ t = l
  | [], l => by simp [List.isPrefixOf]
  | a :: as, [] => by simp [List.isPrefixOf]
  | a :: as, b :: bs => by
    simp only [List.isPrefixOf, Bool.and_eq_true, beq_iff_eq, List.cons_append, List.cons.injEq]
    constructor
    · rintro ⟨hab, h⟩
      obtain ⟨t, ht⟩ := (isPrefixOf_exists as bs).mp h
      exact ⟨t, hab, ht⟩
    · rintro ⟨t, h1, h2⟩
      exact ⟨h1, (isPrefixOf_exists as bs).mpr ⟨t, h2⟩⟩

/-- Finding the first separator after a separator-free block. -/
lemma findSlash_append (k : List Char) :
    ∀ b : List Char, '/' ∉ b → findSlash (b ++ '/' :: k) = some b.length
  | [], _ => by simp [findSlash]
  | c :: cs, h => by
    have hc : ¬ c = '/' := fun hx => h (hx ▸ List.mem_cons_self c cs)
    have hcs : '/' ∉ cs := fun hx => h (List.mem_cons_of_mem c hx)
    have hrec : findSlash (cs ++ '/' :: k) = some cs.length := findSlash_append k cs hcs
    simp only [List.cons_append, findSlash, if_neg hc, List.length_cons]
    rw [show cs.append ('/' :: k) = cs ++ '/' :: k from rfl, hrec]
    rfl

end Wimbd

namespace Wimbd

/-! ## Claim theorems -/

/-- C3: for every record of `t` tokens and every `n ≥ 1`, the n-gram
pipeline produces exactly `t + 1 - n` keys (`= max(0, t - n + 1)`), the
`i`-th key (0-based) being the contiguous slice `tokens[i..i+n]`; no key
is produced before the window first fills (keys exist only for
`i ≤ t - n`), and the `unique` handler performs exactly one counter
operation per produced key. -/
theorem C3_ngram_pipeline (n : Nat) (hn : 1 ≤ n) (ts : List α) :
    ngramWindows n ts = (List.range (ts.length + 1 - n)).map (fun i => (ts.drop i).take n)
    ∧ (ngramWindows n ts).length = ts.length + 1 - n
    ∧ uniqueIncrementTrace n ts = ngramWindows n ts := by
  refine ⟨ngramWindows_eq n hn ts, ?_, ?_⟩
  · rw [ngramWindows_eq n hn ts]
    simp
  · rw [uniqueIncrementTrace, uniqueFold_trace n ts [] []]
    simp [ngramWindows]

/-- Witness for C3 at `n = 2`, `tokens = [0, 1, 2]`. -/
theorem C3_ngram_pipeline_witness :
    1 ≤ 2
    ∧ (ngramWindows 2 ([0, 1, 2] : List Nat)
        = (List.range (([0, 1, 2] : List Nat).length + 1 - 2)).map
            (fun i => (([0, 1, 2] : List Nat).drop i).take 2)
      ∧ (ngramWindows 2 ([0, 1, 2] : List Nat)).length = ([0, 1, 2] : List Nat).length + 1 - 2
      ∧ uniqueIncrementTrace 2 ([0, 1, 2] : List Nat) = ngramWindows 2 ([0, 1, 2] : List Nat)) :=
  ⟨by decide, C3_ngram_pipeline 2 (by decide) [0, 1, 2]⟩

/-- C2 (amended): in the top-K per-record handler, a copy of the window is
admitted to the worker's local heap exactly when the count returned by
`table.increment(key, 1)` strictly exceeds the task threshold AND is
greater than or equal to both the local heap's watermark and the global
heap's published watermark: the admitted log of a record run equals the
filter of the full full-window observation trace under that test. -/
theorem C2_topk_admission (incr : τ → List α → Nat × τ) (th gm n : Nat) (tb0 : τ)
    (hp0 : TopKNgrams (List α)) (ts : List α) :
    (topkProcessRecord incr th gm n tb0 hp0 ts).admitted
      = ((ts.foldl (topkObsStep incr th gm n) ⟨[], tb0, hp0, []⟩).obs.filter
          (topkAdmitTest th gm)).map (fun o => (o.window, o.count)) :=
  topkFold_admitted incr th gm n ts ⟨[], tb0, hp0, []⟩ ⟨[], tb0, hp0, []⟩ rfl rfl rfl (by simp)

/-- C2 (counterexample): with threshold 1, a full local heap whose
watermark is 5, global watermark 5, and a table answering count 5, the
handler admits the window (count ≥ watermarks suffices), although count
does not STRICTLY exceed the watermarks as the claim requires. -/
theorem C2_strict_watermark_counterexample :
    (topkProcessRecord (fun (t : Unit) _ => (5, t)) 1 5 1 () ⟨1, [([42], 5)]⟩ [7]).admitted
        = [([7], 5)]
    ∧ topkAdmitTest 1 5 ⟨[7], 5, 5⟩ = true
    ∧ topkStrictTest 1 5 ⟨[7], 5, 5⟩ = false := by
  exact ⟨rfl, rfl, rfl⟩

/-- C1: with the default `--threshold` (`u32::MAX`), the pass-2 per-record
test admits an entry of inverse count 10 (10 > type_max − threshold = 0),
but the end-of-file merge filter `sync_local_topk` compares the inverse
count against `opt.threshold` itself — not against
`type_max − opt.threshold` — and so drops the entry, while the
specification's merge filter forwards it: the two admission tests are not
the same. -/
theorem C1_botk_merge_filter_threshold_bug :
    (botkProcessRecord (fun _ => 10) none (fun _ => 0) u32Max 0 1 ⟨1, []⟩ ([0] : List Nat)).admitted
        = [([0], 10)]
    ∧ sync_local_topk u32Max 0 ([([0], 10)] : List (List Nat × Nat)) = []
    ∧ specSyncLocalTopk u32Max 0 ([([0], 10)] : List (List Nat × Nat)) = [([0], 10)] := by
  refine ⟨?_, ?_, ?_⟩ <;> decide

/-- C4 (counterexample): with `--workers 100` on an 8-CPU machine and 200
input files, `DataExecutor::new` creates 100 workers, not the
`min(configured, CPU-count, 64, #files) = 8` the claim states. -/
theorem C4_workers_counterexample :
    dataExecutorWorkers (some 100) 8 200 = 100
    ∧ claimedWorkers 100 8 200 = 8
    ∧ (100 : Nat) ≠ 8 := by
  exact ⟨rfl, rfl, by decide⟩

/-- C4 (amended): the pool size is `max(1, min(configured, #files))` when
`--workers` is given — the CPU-count and 64 caps apply only to the
default — and `max(1, min(64, CPU-count, #files))` otherwise; the claim's
formula holds when the configured value is between 1 and
`min(64, CPU-count)` and at least one file is given. -/
theorem C4_workers_amended (c cpu np : Nat) :
    dataExecutorWorkers (some c) cpu np = Nat.max 1 (Nat.min c np)
    ∧ dataExecutorWorkers none cpu np = Nat.max 1 (Nat.min (Nat.min 64 cpu) np)
    ∧ (1 ≤ c → c ≤ 64 → c ≤ cpu → 1 ≤ np →
        dataExecutorWorkers (some c) cpu np = claimedWorkers c cpu np) := by
  refine ⟨rfl, rfl, fun h1 h2 h3 h4 => ?_⟩
  simp only [dataExecutorWorkers, claimedWorkers, Option.getD_some, Nat.min_def, Nat.max_def]
  split_ifs <;> omega

/-- Witness for C4 (amended) at configured 8, 16 CPUs, 100 files. -/
theorem C4_workers_amended_witness :
    (1 ≤ 8 ∧ 8 ≤ 64 ∧ 8 ≤ 16 ∧ 1 ≤ 100)
    ∧ dataExecutorWorkers (some 8) 16 100 = claimedWorkers 8 16 100 :=
  ⟨by decide, (C4_workers_amended 8 16 100).2.2 (by decide) (by decide) (by decide) (by decide)⟩

/-- C5 (counterexample): the top-K task's validation accepts an empty path
list (there is no empty-path check in `topk::main`) and the driver
proceeds and completes, while the bottom-K task rejects it — so it is not
the case that every task invoked with an empty path list returns an
error. -/
theorem C5_topk_empty_paths_counterexample :
    topkValidate ⟨[], 20, 4294967296, 5, 3, none⟩ = .ok []
    ∧ botkValidate ⟨[], 20, 4294967296, 5, 3, none, none⟩
        = .error "at least one path is required" := by
  exact ⟨rfl, rfl⟩

/-- C5 (amended): the bottom-K, unique and exact-count tasks reject an
empty path list with a clear error before any work; `k = 0`, `size = 0`
and `n = 0` are rejected by the top-K and bottom-K validations; the top-K
task does NOT reject an empty path list. -/
theorem C5_validation_amended :
    (∀ o : BotkOpt, o.path = [] → botkValidate o = .error "at least one path is required")
    ∧ (∀ o : UniqueOpt, o.path = [] → uniqueValidate o = .error "at least one path is required")
    ∧ (∀ o : CountOpt, o.path = [] → ∃ e, countValidate o = .error e)
    ∧ (∀ o : TopkOpt, o.topk = 0 ∨ o.size = 0 ∨ o.ngram = 0 → ∃ e, topkValidate o = .error e)
    ∧ (∀ o : BotkOpt, o.k = 0 ∨ o.size = 0 ∨ o.ngram = 0 → ∃ e, botkValidate o = .error e)
    ∧ (∀ o : TopkOpt, topkValidate o = .ok (truncOpt o.fileLimit o.path)
        ↔ (o.topk ≠ 0 ∧ o.size ≠ 0 ∧ o.hashes ≠ 0 ∧ o.ngram ≠ 0)) := by
  refine ⟨?_, ?_, ?_, ?_, ?_, ?_⟩
  · intro o h
    unfold botkValidate
    rw [if_pos h]
  · intro o h
    unfold uniqueValidate
    rw [if_pos h]
  · intro o h
    obtain ⟨p, s, fl⟩ := o
    change p = [] at h
    subst h
    by_cases hs : s = []
    · exact ⟨"At least one -s/--search term is required", by
        unfold countValidate
        rw [if_pos hs]⟩
    · cases fl with
      | none =>
        exact ⟨"at least one path is required", by
          unfold countValidate
          rw [if_neg hs]
          rfl⟩
      | some l =>
        cases l with
        | zero =>
          exact ⟨"File limit cannot be 0", by
            unfold countValidate
            rw [if_neg hs]⟩
        | succ m =>
          exact ⟨"at least one path is required", by
            unfold countValidate
            rw [if_neg hs]
            rfl⟩
  · intro o h
    unfold topkValidate
    split
    · exact ⟨_, rfl⟩
    · split
      · exact ⟨_, rfl⟩
      · split
        · exact ⟨_, rfl⟩
        · split
          · exact ⟨_, rfl⟩
          · rename_i h1 h2 h3 h4
            rcases h with h | h | h
            · exact absurd h h1
            · exact absurd h h2
            · exact absurd h h4
  · intro o h
    unfold botkValidate
    split
    · exact ⟨_, rfl⟩
    · split
      · exact ⟨_, rfl⟩
      · split
        · exact ⟨_, rfl⟩
        · split
          · exact ⟨_, rfl⟩
          · split
            · exact ⟨_, rfl⟩
            · rename_i h1 h2 h3 h4 h5
              rcases h with h | h | h
              · exact absurd h h2
              · exact absurd h h3
              · exact absurd h h5
  · intro o
    constructor
    · intro h
      unfold topkValidate at h
      by_cases h1 : o.topk = 0
      · rw [if_pos h1] at h
        exact absurd h (fun hx => Except.noConfusion hx)
      · by_cases h2 : o.size = 0
        · rw [if_neg h1, if_pos h2] at h
          exact absurd h (fun hx => Except.noConfusion hx)
        · by_cases h3 : o.hashes = 0
          · rw [if_neg h1, if_neg h2, if_pos h3] at h
            exact absurd h (fun hx => Except.noConfusion hx)
          · by_cases h4 : o.ngram = 0
            · rw [if_neg h1, if_neg h2, if_neg h3, if_pos h4] at h
              exact absurd h (fun hx => Except.noConfusion hx)
            · exact ⟨h1, h2, h3, h4⟩
    · intro hc
      obtain ⟨h1, h2, h3, h4⟩ := hc
      unfold topkValidate
      rw [if_neg h1, if_neg h2, if_neg h3, if_neg h4]

end Wimbd

namespace Wimbd

/-- Witness for C5 (amended): concrete rejections and the concrete top-K
acceptance behaviour. -/
theorem C5_validation_amended_witness :
    botkValidate ⟨[], 20, 1, 5, 3, none, none⟩ = .error "at least one path is required"
    ∧ (∃ e, topkValidate ⟨["a.json.gz"], 0, 1, 5, 3, none⟩ = .error e) :=
  ⟨C5_validation_amended.1 ⟨[], 20, 1, 5, 3, none, none⟩ rfl,
    C5_validation_amended.2.2.2.1 ⟨["a.json.gz"], 0, 1, 5, 3, none⟩ (Or.inl rfl)⟩

/-- C6: the per-job verification of `execute_with_callback` is
`path.is_file()` alone: on an `s3://` URI (not a regular file in the OS
file system) it raises the early-exit flag and returns an error before the
reader is ever opened — although `is_s3` classifies the path as a remote
URI and the specification's verification accepts it (the s3 branch of
`GzBufReader::open` is unreachable through the executor). -/
theorem C6_s3_path_rejected :
    executePathCheck (fun _ => false) "s3://bucket/data.json.gz"
        = (true, some "File s3://bucket/data.json.gz does not exist")
    ∧ is_s3 "s3://bucket/data.json.gz" = true
    ∧ specPathVerify (fun _ => false) "s3://bucket/data.json.gz" = true := by
  refine ⟨rfl, ?_, ?_⟩ <;> decide

/-- C7: for every search term `s` with `min_search_length ≤ |s|` (which
holds for every term, the minimum being over all terms), the exact-count
loop increments the counter of `s` exactly once per position `i` with
`tokens[i..i+|s|] = s`: starting the index loop at the minimum search
length neither misses nor double-counts a match, also when terms of
different lengths are given. -/
theorem C7_count_occurences_exact [DecidableEq α] (minLen : Nat) (tokens s : List α)
    (h : minLen ≤ s.length) :
    count_occurences minLen tokens s
      = (List.range (tokens.length + 1 - s.length)).countP
          (fun i => decide ((tokens.drop i).take s.length = s)) := by
  unfold count_occurences
  rw [List.range'_eq_map_range, List.countP_map]
  rcases le_or_lt s.length (tokens.length + 1) with hm | hm
  · have hsplit : tokens.length + 1 - minLen
        = (tokens.length + 1 - s.length) + (s.length - minLen) := by
      omega
    rw [hsplit]
    have hcong : ∀ j ∈ List.range ((tokens.length + 1 - s.length) + (s.length - minLen)),
        (((fun idx => decide (s.length ≤ idx)
            && decide ((tokens.drop (idx - s.length)).take s.length = s)) ∘ (minLen + ·)) j = true
          ↔ (fun j => decide (s.length - minLen ≤ j)
              && decide ((tokens.drop (minLen + j - s.length)).take s.length = s)) j = true) := by
      intro j _
      simp only [Function.comp_apply]
      have hd : decide (s.length ≤ minLen + j) = decide (s.length - minLen ≤ j) :=
        decide_eq_decide.mpr (by omega)
      rw [hd]
    rw [List.countP_congr hcong,
      countP_range_shift (s.length - minLen)
        (fun j => decide ((tokens.drop (minLen + j - s.length)).take s.length = s))
        (tokens.length + 1 - s.length)]
    apply List.countP_congr
    intro j _
    have e : minLen + (j + (s.length - minLen)) - s.length = j := by omega
    rw [e]
  · have h0 : tokens.length + 1 - s.length = 0 := by omega
    rw [h0]
    rw [List.countP_eq_zero.mpr, List.countP_eq_zero.mpr]
    · intro a ha
      simp at ha
    · intro a ha
      rw [List.mem_range] at ha
      have hns : ¬ s.length ≤ minLen + a := by omega
      simp [Function.comp_apply, hns]

/-- Witness for C7: searching `["a", "b"]` (the tokenization of `"a b"`)
over the tokens of `"a b a b"` with `min_search_length = 2` counts both
occurrences. -/
theorem C7_count_occurences_exact_witness :
    2 ≤ (["a", "b"] : List String).length
    ∧ count_occurences 2 ["a", "b", "a", "b"] ["a", "b"]
        = (List.range ((["a", "b", "a", "b"] : List String).length + 1
            - (["a", "b"] : List String).length)).countP
            (fun i => decide (((["a", "b", "a", "b"] : List String).drop i).take
                (["a", "b"] : List String).length = ["a", "b"]))
    ∧ count_occurences 2 ["a", "b", "a", "b"] ["a", "b"] = 2 :=
  ⟨by decide, C7_count_occurences_exact 2 ["a", "b", "a", "b"] ["a", "b"] (by decide), by decide⟩

/-- C8 (counterexample): the top-K driver enqueues its paths in the
validated input order whatever permutation the seeded RNG would draw — for
a draw that reverses the two paths, the claimed shuffled order differs
from the order the code enqueues. -/
theorem C8_topk_no_shuffle_counterexample :
    topkEnqueueOrder List.reverse ["a.json.gz", "b.json.gz"] = ["a.json.gz", "b.json.gz"]
    ∧ botkEnqueueOrder List.reverse ["a.json.gz", "b.json.gz"] = ["b.json.gz", "a.json.gz"]
    ∧ topkEnqueueOrder List.reverse ["a.json.gz", "b.json.gz"]
        ≠ List.reverse ["a.json.gz", "b.json.gz"] := by
  refine ⟨rfl, rfl, ?_⟩
  decide

/-- C8 (amended): only the bottom-K driver shuffles its validated path
list with the drawn permutation before enqueuing one job per path; the
top-K driver enqueues the validated paths unchanged, independent of the
draw. -/
theorem C8_shuffle_amended (perm1 perm2 : List String → List String)
    (o1 : BotkOpt) (o2 : TopkOpt) (ps1 ps2 : List String)
    (h1 : botkValidate o1 = .ok ps1) (h2 : topkValidate o2 = .ok ps2) :
    botkEnqueueOrder perm1 ps1 = perm1 ps1
    ∧ topkEnqueueOrder perm1 ps2 = ps2
    ∧ topkEnqueueOrder perm1 ps2 = topkEnqueueOrder perm2 ps2 :=
  ⟨rfl, rfl, rfl⟩

/-- Witness for C8 (amended) at concrete validated options. -/
theorem C8_shuffle_amended_witness :
    botkValidate ⟨["a.json.gz"], 20, 1, 5, 3, none, none⟩ = .ok ["a.json.gz"]
    ∧ (botkEnqueueOrder List.reverse ["a.json.gz"] = List.reverse ["a.json.gz"]
      ∧ topkEnqueueOrder List.reverse ["b.json.gz"] = ["b.json.gz"]
      ∧ topkEnqueueOrder List.reverse ["b.json.gz"] = topkEnqueueOrder id ["b.json.gz"]) :=
  ⟨rfl, C8_shuffle_amended List.reverse id ⟨["a.json.gz"], 20, 1, 5, 3, none, none⟩
    ⟨["b.json.gz"], 20, 1, 5, 3, none⟩ ["a.json.gz"] ["b.json.gz"] rfl rfl⟩

/-- The rational one half, written as an explicit reduced fraction. -/
def ratHalf : ℚ := ⟨1, 2, by decide, Nat.coprime_one_left 2⟩

/-- C9 (counterexample): with `--p-keep 0.5` set, the bottom-K pass-2
handler consults the unseeded `random::<f32>()` stream; two runs over the
same record, same seed-determined inputs, but different entropy streams
(all draws 0 versus all draws 1) admit different entries, so the outputs
of the two runs differ. -/
theorem C9_p_keep_nondeterminism :
    (botkProcessRecord (fun _ => 10) (some ratHalf) (fun _ => 0) u32Max 0 1 ⟨1, []⟩
        ([0] : List Nat)).admitted
      ≠ (botkProcessRecord (fun _ => 10) (some ratHalf) (fun _ => 1) u32Max 0 1 ⟨1, []⟩
        ([0] : List Nat)).admitted := by
  decide

/-- C9 (amended): when `--p-keep` is absent the pass-2 handler never
consults the random stream: two runs with the same seed-determined inputs
produce identical states whatever the entropy streams are. -/
theorem C9_no_p_keep_deterministic (maxCount : List α → Nat) (s1 s2 : Nat → ℚ)
    (taskThreshold globalMin n : Nat) (hp0 : TopKNgrams (List α)) (ts : List α) :
    botkProcessRecord maxCount none s1 taskThreshold globalMin n hp0 ts
      = botkProcessRecord maxCount none s2 taskThreshold globalMin n hp0 ts :=
  rfl

/-- C10: `split_s3_path` on `"s3://" ++ bucket ++ "/" ++ key` with a
slash-free bucket returns exactly `(bucket, key)`, and `is_s3` holds
exactly on character sequences that extend `"s3://"`. -/
theorem C10_split_s3_path (b k p : List Char) (hb : '/' ∉ b) :
    split_s3_path ("s3://".data ++ b ++ '/' :: k) = some (b, k)
    ∧ (is_s3Chars p = true ↔ ∃ rest, p = "s3://".data ++ rest) := by
  constructor
  · have hpre : "s3://".data.isPrefixOf ("s3://".data ++ b ++ '/' :: k) = true := by
      refine (isPrefixOf_exists _ _).mpr ⟨b ++ '/' :: k, ?_⟩
      rw [List.append_assoc]
    have h1 : stripPrefHelper "s3://".data ("s3://".data ++ b ++ '/' :: k)
        = some (b ++ '/' :: k) := by
      unfold stripPrefHelper
      rw [if_pos hpre, List.append_assoc, List.drop_left]
    have hdrop : (b ++ '/' :: k).drop (b.length + 1) = k := by
      rw [← List.drop_drop, List.drop_left]
      rfl
    unfold split_s3_path
    rw [h1, Option.some_bind, findSlash_append k b hb]
    simp only [Option.map_some']
    rw [List.take_left, hdrop]
  · unfold is_s3Chars
    rw [isPrefixOf_exists]
    constructor
    · rintro ⟨t, ht⟩
      exact ⟨t, ht.symm⟩
    · rintro ⟨rest, hr⟩
      exact ⟨rest, hr.symm⟩

/-- Witness for C10 at bucket `"bucket"`, key `"key.json.gz"`. -/
theorem C10_split_s3_path_witness :
    ('/' ∉ "bucket".data)
    ∧ (split_s3_path ("s3://".data ++ "bucket".data ++ '/' :: "key.json.gz".data)
          = some ("bucket".data, "key.json.gz".data)
      ∧ (is_s3Chars "s3://x".data = true ↔ ∃ rest, "s3://x".data = "s3://".data ++ rest)) :=
  ⟨by decide, C10_split_s3_path "bucket".data "key.json.gz".data "s3://x".data (by decide)⟩

end Wimbd
